import Mathlib

/-!
Shallow embedding of `reader3.py` (EPUB/PDF → structured `Book` converter)
together with proofs about its segmentation engine.

Conventions used throughout:
* Python strings are modelled as `String` / `List Char`; helper functions whose
  names start with `py` model the corresponding Python builtin (`str.split`,
  `str.replace`, `str.title`, `str.find`, `str.rfind`, slicing, `range`).
* Parsed HTML documents (BeautifulSoup objects) are modelled by the `Node`
  tree; external-library behaviour (parsing, serialisation) is modelled at the
  interface boundary and documented at each definition.
* The file-system, pickling and metadata layers of the source are external
  I/O and are not part of the segmentation logic under verification.
-/

namespace Reader3

/-! ## Python string primitives -/

/-- Whitespace test used by Python `str.split()` with no arguments
(space, tab, newline, carriage return, vertical tab, form feed;
written by code point). -/
def isWS (c : Char) : Bool :=
  match c.toNat with
  | 32 | 9 | 10 | 13 | 11 | 12 => true
  | _ => false

/-- Python `s.split()`: split on runs of whitespace, dropping empty pieces. -/
def splitW : List Char → List (List Char)
  | [] => []
  | c :: cs =>
    if isWS c then splitW cs
    else
      match cs with
      | [] => [[c]]
      | d :: _ =>
        if isWS d then [c] :: splitW cs
        else
          match splitW cs with
          | [] => [[c]]
          | t :: ts => (c :: t) :: ts

/-- Python `' '.join(ws)`: join pieces with a single space. -/
def joinWords : List (List Char) → List Char
  | [] => []
  | [t] => t
  | t :: u :: ts => t ++ ' ' :: joinWords (u :: ts)

/-- Python `' '.join(s.split())` — the whitespace-collapsing core of
`extract_plain_text` (`reader3.py` line 94). -/
def normWS (l : List Char) : List Char :=
  joinWords (splitW l)

/-! ### Properties of `splitW` / `joinWords` -/

theorem splitW_ws {c : Char} (cs : List Char) (h : isWS c = true) :
    splitW (c :: cs) = splitW cs := by
  rw [splitW.eq_def]
  simp [h]

/-- Bridge between the equation-style definition of `splitW` and a
takeWhile/dropWhile description of its first token. -/
theorem splitW_cons_neg (c : Char) (cs : List Char) (h : isWS c = false) :
    splitW (c :: cs) =
      (c :: cs.takeWhile (fun x => !isWS x)) :: splitW (cs.dropWhile (fun x => !isWS x)) := by
  induction cs generalizing c with
  | nil =>
    rw [splitW.eq_def]
    simp [h, splitW]
  | cons d cs' ih =>
    rw [splitW.eq_def]
    simp only [h, Bool.false_eq_true, if_false]
    by_cases hd : isWS d
    · simp [hd]
    · have hd' : isWS d = false := by simpa using hd
      rw [ih d hd']
      simp [hd']

theorem dropWhile_length_le (p : Char → Bool) (l : List Char) :
    (l.dropWhile p).length ≤ l.length := by
  induction l with
  | nil => simp [List.dropWhile]
  | cons c cs ih =>
    rw [List.dropWhile]
    by_cases h : p c
    · simp only [h, if_true]; exact Nat.le_succ_of_le ih
    · simp [h]

/-- Every token produced by `splitW` is nonempty and whitespace-free. -/
theorem splitW_good : (l : List Char) → ∀ t ∈ splitW l, t ≠ [] ∧ ∀ c ∈ t, isWS c = false
  | [] => by simp [splitW]
  | c :: cs => by
    by_cases h : isWS c
    · rw [splitW_ws cs h]
      exact splitW_good cs
    · have h' : isWS c = false := by simpa using h
      rw [splitW_cons_neg c cs h']
      intro t ht
      rcases List.mem_cons.mp ht with rfl | ht'
      · refine ⟨by simp, ?_⟩
        intro x hx
        rcases List.mem_cons.mp hx with rfl | hx'
        · exact h'
        · have := List.mem_takeWhile_imp hx'
          simpa using this
      · exact splitW_good (cs.dropWhile (fun x => !isWS x)) t ht'
  termination_by l => l.length
  decreasing_by
    · simp
    · have := dropWhile_length_le (fun x => !isWS x) cs
      simp only [List.length_cons]
      omega

theorem takeWhile_append_all {p : Char → Bool} :
    ∀ {t : List Char}, (∀ c ∈ t, p c = true) → ∀ r, (t ++ r).takeWhile p = t ++ r.takeWhile p := by
  intro t
  induction t with
  | nil => intro _ r; simp
  | cons c cs ih =>
    intro h r
    have hc : p c = true := h c (by simp)
    simp only [List.cons_append, List.takeWhile_cons, hc, if_true]
    rw [ih (fun x hx => h x (by simp [hx]))]

theorem dropWhile_append_all {p : Char → Bool} :
    ∀ {t : List Char}, (∀ c ∈ t, p c = true) → ∀ r, (t ++ r).dropWhile p = r.dropWhile p := by
  intro t
  induction t with
  | nil => intro _ r; simp
  | cons c cs ih =>
    intro h r
    have hc : p c = true := h c (by simp)
    simp only [List.cons_append, List.dropWhile_cons, hc, if_true]
    exact ih (fun x hx => h x (by simp [hx])) r

/-- Splitting a single good (nonempty, whitespace-free) token returns it alone. -/
theorem splitW_token (t : List Char) (hne : t ≠ []) (hg : ∀ c ∈ t, isWS c = false) :
    splitW t = [t] := by
  rcases t with _ | ⟨c, t'⟩
  · exact absurd rfl hne
  · have hc : isWS c = false := hg c (by simp)
    rw [splitW_cons_neg c t' hc]
    have hall : ∀ x ∈ t', (fun x => !isWS x) x = true := by
      intro x hx
      simp [hg x (by simp [hx])]
    have h1 : t'.takeWhile (fun x => !isWS x) = t' := by
      have := takeWhile_append_all (p := fun x => !isWS x) hall []
      simpa using this
    have h2 : t'.dropWhile (fun x => !isWS x) = [] := by
      have := dropWhile_append_all (p := fun x => !isWS x) hall []
      simpa using this
    rw [h1, h2]
    simp [splitW]

/-- Splitting a good token followed by a whitespace character peels off the token. -/
theorem splitW_token_ws (t : List Char) (hne : t ≠ []) (hg : ∀ c ∈ t, isWS c = false)
    (d : Char) (hd : isWS d = true) (r : List Char) :
    splitW (t ++ d :: r) = t :: splitW r := by
  rcases t with _ | ⟨c, t'⟩
  · exact absurd rfl hne
  · have hc : isWS c = false := hg c (by simp)
    rw [List.cons_append, splitW_cons_neg c (t' ++ d :: r) hc]
    have hall : ∀ x ∈ t', (fun x => !isWS x) x = true := by
      intro x hx
      simp [hg x (by simp [hx])]
    rw [takeWhile_append_all hall, dropWhile_append_all hall]
    have htw : (d :: r).takeWhile (fun x => !isWS x) = [] := by
      simp [List.takeWhile_cons, hd]
    have hdw : (d :: r).dropWhile (fun x => !isWS x) = d :: r := by
      simp [List.dropWhile_cons, hd]
    rw [htw, hdw, splitW_ws r hd]
    simp

/-- Re-splitting the space-joined good tokens recovers exactly the tokens. -/
theorem splitW_joinWords : ∀ ts : List (List Char),
    (∀ t ∈ ts, t ≠ [] ∧ ∀ c ∈ t, isWS c = false) → splitW (joinWords ts) = ts
  | [] => by intro _; simp [joinWords, splitW]
  | [t] => by
    intro h
    have := h t (by simp)
    simpa [joinWords] using splitW_token t this.1 this.2
  | t :: u :: ts => by
    intro h
    have ht := h t (by simp)
    rw [joinWords, splitW_token_ws t ht.1 ht.2 ' ' (by decide) (joinWords (u :: ts))]
    rw [splitW_joinWords (u :: ts) (fun x hx => h x (by simp [List.mem_cons] at hx ⊢; tauto))]

/-- The whitespace-collapsing normalisation is idempotent. -/
theorem normWS_idem (l : List Char) : normWS (normWS l) = normWS l := by
  unfold normWS
  rw [splitW_joinWords (splitW l) (splitW_good l)]

/-! ### Whitespace normal form

A small automaton recognising strings with no leading/trailing whitespace in
which every whitespace occurrence is a single `' '` followed by a
non-whitespace character. -/

mutual
/-- State: at the start of the string (or of a token). -/
def wsNormalized : List Char → Bool
  | [] => true
  | c :: cs => !isWS c && wsInTok cs
/-- State: inside a token (previous char was non-whitespace). -/
def wsInTok : List Char → Bool
  | [] => true
  | c :: cs => if isWS c then c == ' ' && wsAfterSep cs else wsInTok cs
/-- State: right after a separator space (must see a non-whitespace char). -/
def wsAfterSep : List Char → Bool
  | [] => false
  | c :: cs => !isWS c && wsInTok cs
end

theorem wsInTok_append_tok {t : List Char} (hg : ∀ c ∈ t, isWS c = false) (r : List Char) :
    wsInTok (t ++ r) = wsInTok r := by
  induction t with
  | nil => simp
  | cons c cs ih =>
    have hc := hg c (by simp)
    rw [List.cons_append, wsInTok, hc]
    simp only [Bool.false_eq_true, if_false]
    exact ih (fun x hx => hg x (by simp [hx]))

theorem wsAfterSep_eq (l : List Char) : wsAfterSep l = (!l.isEmpty && wsNormalized l) := by
  cases l with
  | nil => simp [wsAfterSep]
  | cons c cs => simp [wsAfterSep, wsNormalized, List.isEmpty]

theorem joinWords_ne_nil {t : List Char} {ts : List (List Char)} (hne : t ≠ []) :
    joinWords (t :: ts) ≠ [] := by
  cases ts with
  | nil => simpa [joinWords] using hne
  | cons u us =>
    rw [joinWords]
    intro hcontra
    exact hne (List.append_eq_nil.mp hcontra).1

/-- Joining good tokens with single spaces yields a whitespace-normal string. -/
theorem wsNormalized_joinWords : ∀ ts : List (List Char),
    (∀ t ∈ ts, t ≠ [] ∧ ∀ c ∈ t, isWS c = false) → wsNormalized (joinWords ts) = true
  | [] => by intro _; simp [joinWords, wsNormalized]
  | [t] => by
    intro h
    obtain ⟨hne, hg⟩ := h t (by simp)
    rcases t with _ | ⟨c, t'⟩
    · exact absurd rfl hne
    · rw [joinWords, wsNormalized]
      have hc := hg c (by simp)
      have h2 : wsInTok t' = true := by
        have := wsInTok_append_tok (t := t') (fun x hx => hg x (by simp [hx])) []
        simpa [wsInTok] using this
      simp [hc, h2]
  | t :: u :: ts => by
    intro h
    obtain ⟨hne, hg⟩ := h t (by simp)
    rcases t with _ | ⟨c, t'⟩
    · exact absurd rfl hne
    · rw [joinWords, List.cons_append, wsNormalized]
      have hc := hg c (by simp)
      have h1 : wsInTok (t' ++ ' ' :: joinWords (u :: ts)) = wsInTok (' ' :: joinWords (u :: ts)) :=
        wsInTok_append_tok (fun x hx => hg x (by simp [hx])) _
      have hIH : wsNormalized (joinWords (u :: ts)) = true :=
        wsNormalized_joinWords (u :: ts) (fun x hx => h x (by simp [List.mem_cons] at hx ⊢; tauto))
      have hune : u ≠ [] := (h u (by simp)).1
      have hjne : joinWords (u :: ts) ≠ [] := joinWords_ne_nil hune
      have hj : (joinWords (u :: ts)).isEmpty = false := by
        cases hJ : joinWords (u :: ts) with
        | nil => exact absurd hJ hjne
        | cons a as => simp
      have hsp : isWS ' ' = true := by decide
      rw [h1]
      simp only [wsInTok, hsp, if_true, wsAfterSep_eq, hj, hIH, hc]
      simp

/-- The output of the normalisation is always in whitespace normal form. -/
theorem wsNormalized_normWS (l : List Char) : wsNormalized (normWS l) = true :=
  wsNormalized_joinWords (splitW l) (splitW_good l)

/-! ## More Python primitives -/

/-- Python `s.split(sep)` for a one-character separator: split at every
occurrence, keeping empty pieces (so the result is always nonempty). -/
def pySplitOnChar (sep : Char) : List Char → List (List Char)
  | [] => [[]]
  | c :: cs =>
    if c == sep then [] :: pySplitOnChar sep cs
    else
      match pySplitOnChar sep cs with
      | [] => [[c]]
      | t :: ts => (c :: t) :: ts

/-- Does `pat` match at the head of `l`? -/
def leadMatch : List Char → List Char → Bool
  | [], _ => true
  | _ :: _, [] => false
  | p :: ps, c :: cs => p == c && leadMatch ps cs

/-- Fuel-driven worker for Python `str.replace`: replaces each non-overlapping
occurrence of `pat` left to right. The fuel is the string length, which
bounds the number of steps since every step consumes at least one character. -/
def pyReplaceAux (pat rep : List Char) : Nat → List Char → List Char
  | 0, s => s
  | _ + 1, [] => []
  | fuel + 1, c :: cs =>
    if leadMatch pat (c :: cs) then rep ++ pyReplaceAux pat rep fuel ((c :: cs).drop pat.length)
    else c :: pyReplaceAux pat rep fuel cs

/-- Python `s.replace(pat, rep)` (all occurrences, left to right). -/
def pyReplace (pat rep s : List Char) : List Char :=
  if pat.isEmpty then s else pyReplaceAux pat rep s.length s

/-- Worker for Python `str.title`: the flag records whether the previous
character was alphabetic. -/
def pyTitleAux : Bool → List Char → List Char
  | _, [] => []
  | prevAlpha, c :: cs =>
    (if c.isAlpha then (if prevAlpha then c.toLower else c.toUpper) else c) ::
      pyTitleAux c.isAlpha cs

/-- Python `s.title()`: uppercase every letter that follows a non-letter,
lowercase the other letters. -/
def pyTitle (s : List Char) : List Char :=
  pyTitleAux false s

/-- One hex digit, as used by percent-decoding (by code point: digits are
48-57, lowercase letters 97-102, uppercase letters 65-70). -/
def hexVal (c : Char) : Option Nat :=
  let n := c.toNat
  if 48 ≤ n && n ≤ 57 then some (n - 48)
  else if 97 ≤ n && n ≤ 102 then some (n - 87)
  else if 65 ≤ n && n ≤ 70 then some (n - 55)
  else none

/-- Models `urllib.parse.unquote` at the byte/character level: every `%XX`
escape with two hex digits becomes the character with that code; malformed
escapes are left as literal text. (The source treats `unquote` as an external
library primitive; multi-byte UTF-8 sequences are out of scope of the claims.) -/
def percentDecode : List Char → List Char
  | [] => []
  | '%' :: a :: b :: rest =>
    match hexVal a, hexVal b with
    | some x, some y => Char.ofNat (16 * x + y) :: percentDecode rest
    | _, _ => '%' :: percentDecode (a :: b :: rest)
  | c :: rest => c :: percentDecode rest

/-- Python `os.path.basename`: the part after the last `/`. -/
def pyBasename (l : List Char) : List Char :=
  (l.reverse.takeWhile (fun c => !(c == '/'))).reverse

/-- First index at which `pat` occurs in `l` (Python `s.find`, with `none`
for Python's `-1`). -/
def occurAt (l pat : List Char) : Option Nat :=
  match l with
  | [] => if pat.isEmpty then some 0 else none
  | _ :: cs => if leadMatch pat l then some 0 else (occurAt cs pat).map (· + 1)

/-- Index of the last occurrence of character `c` in `l`, or `-1`. -/
def lastIdxOf (c : Char) (l : List Char) : Int :=
  (l.enum.foldl (fun acc p => if p.2 == c then (p.1 : Int) else acc) (-1) : Int)

/-- Python `s.rfind(c, 0, b)`: last index of `c` strictly before `b`, or `-1`. -/
def pyRfind (c : Char) (l : List Char) (b : Nat) : Int :=
  lastIdxOf c (l.take b)

/-- Normalise a (possibly negative) Python slice index against a length. -/
def pySliceIdx (len : Nat) (i : Int) : Nat :=
  if i < 0 then (Int.ofNat len + i).toNat else min i.toNat len

/-- Python slice `s[a:b]` with Python's negative-index semantics. -/
def pySlice (l : List Char) (a b : Int) : List Char :=
  let lo := pySliceIdx l.length a
  let hi := pySliceIdx l.length b
  (l.drop lo).take (hi - lo)

/-- Python `range(start, stop, step)` for positive `step`, as the explicit
list of produced indices. -/
def pyRange (start stop step : Nat) : List Nat :=
  (List.range ((stop - start + step - 1) / step)).map (fun k => start + step * k)

/-- Python `range(a, b)` over integers (used with 0-based page bounds). -/
def intRange (a b : Int) : List Int :=
  (List.range (b - a).toNat).map (fun k => a + (k : Int))

/-- Python `enumerate`, starting at `n`. -/
def withIdx : Nat → List α → List (Nat × α)
  | _, [] => []
  | n, a :: as => (n, a) :: withIdx (n + 1) as

theorem withIdx_length (n : Nat) (l : List α) : (withIdx n l).length = l.length := by
  induction l generalizing n with
  | nil => simp [withIdx]
  | cons a as ih => simp [withIdx, ih]

theorem withIdx_map_add (base : Nat) (l : List α) :
    ∀ n, (withIdx n l).map (fun p => base + p.1) = List.range' (base + n) l.length := by
  induction l with
  | nil => intro n; simp [withIdx]
  | cons a as ih =>
    intro n
    rw [withIdx, List.map_cons, List.length_cons, List.range'_succ, ih (n + 1)]
    simp [Nat.add_assoc]

/-! ## Parsed HTML documents

`Node` models a parsed document tree at the interface of the external HTML
parser (BeautifulSoup): text nodes, comment nodes, element tags with an
attribute list, and the document root. -/

inductive Node where
  | text (s : String)
  | comment (s : String)
  | elem (tag : String) (attrs : List (String × String)) (children : List Node)
  | doc (children : List Node)

mutual
/-- All text-node strings of a node, in document order (bs4 `.strings`;
comments are gone by the time the source calls `get_text`, since it only
does so after `clean_html_content`). -/
def nodeTexts : Node → List (List Char)
  | .text s => [s.data]
  | .comment _ => []
  | .elem _ _ cs => nodeTextsList cs
  | .doc cs => nodeTextsList cs
def nodeTextsList : List Node → List (List Char)
  | [] => []
  | n :: ns => nodeTexts n ++ nodeTextsList ns
end

/-- bs4 `soup.get_text(separator=' ')`: join all text-node strings with a
single space. -/
def getTextSep (n : Node) : List Char :=
  joinWords (nodeTexts n)

/-- Source `extract_plain_text` (`reader3.py` lines 90-94):
`' '.join(soup.get_text(separator=' ').split())`. -/
def extract_plain_text (n : Node) : String :=
  String.mk (normWS (getTextSep n))

/-- Models re-parsing a markup-free plain string (the output of
`extract_plain_text` contains no tags), which yields a single text node. -/
def reparse (s : String) : Node :=
  Node.text s

/-- Tags removed by `clean_html_content` (`reader3.py` lines 73-87; the
`script`…`button` list, plus the separate `input` pass; HTML comments are
removed by the same function). -/
def badTag (t : String) : Bool :=
  t == "script" || t == "style" || t == "iframe" || t == "video" || t == "nav" ||
    t == "form" || t == "button" || t == "input"

mutual
/-- The fate of one node under `clean_html_content`: comments and unwanted
tags are removed (`none`), everything else is kept with cleaned children. -/
def cleanChild : Node → Option Node
  | .text s => some (.text s)
  | .comment _ => none
  | .elem t a cs => if badTag t then none else some (.elem t a (cleanList cs))
  | .doc cs => some (.doc (cleanList cs))
def cleanList : List Node → List Node
  | [] => []
  | n :: rest =>
    match cleanChild n with
    | some m => m :: cleanList rest
    | none => cleanList rest
end

/-- Source `clean_html_content`: decompose unwanted tags and extract comments
in place; the root itself is returned (cleaned). -/
def clean_html_content : Node → Node
  | .elem t a cs => .elem t a (cleanList cs)
  | .doc cs => .doc (cleanList cs)
  | n => n

/-- Serialise one attribute as bs4 does (` key="value"`). -/
def renderAttr (p : String × String) : List Char :=
  ' ' :: p.1.data ++ '=' :: '"' :: p.2.data ++ ['"']

def renderAttrs (attrs : List (String × String)) : List Char :=
  (attrs.map renderAttr).flatten

mutual
/-- Models `str(tag)` / `str(soup)`: serialise a node back to markup (the
document root prints only its children, as bs4 does). -/
def render : Node → List Char
  | .text s => s.data
  | .comment s => "<!--".data ++ s.data ++ "-->".data
  | .elem t a cs =>
    '<' :: t.data ++ renderAttrs a ++ '>' :: renderList cs ++ '<' :: '/' :: t.data ++ ['>']
  | .doc cs => renderList cs
def renderList : List Node → List Char
  | [] => []
  | n :: ns => render n ++ renderList ns
end

/-- Python `"".join(str(x) for x in tag.contents)`: the inner markup of a tag. -/
def renderInner : Node → List Char
  | .elem _ _ cs => renderList cs
  | .doc cs => renderList cs
  | n => render n

mutual
/-- All descendants of a node in document (pre-order) order, excluding the
node itself (bs4 `.descendants`). -/
def subDesc : Node → List Node
  | .text _ => []
  | .comment _ => []
  | .elem _ _ cs => descList cs
  | .doc cs => descList cs
def descList : List Node → List Node
  | [] => []
  | n :: ns => n :: subDesc n ++ descList ns
end

mutual
/-- Structural node equality, modelling bs4 `Tag.__eq__` / string equality
(used by Python `list.index`). -/
def nodeEq : Node → Node → Bool
  | .text s, .text s' => s == s'
  | .comment s, .comment s' => s == s'
  | .elem t a cs, .elem t' a' cs' => t == t' && a == a' && nodeListEq cs cs'
  | .doc cs, .doc cs' => nodeListEq cs cs'
  | _, _ => false
def nodeListEq : List Node → List Node → Bool
  | [], [] => true
  | n :: ns, m :: ms => nodeEq n m && nodeListEq ns ms
  | _, _ => false
end

/-- Python `list.index` over descendants (first structurally equal element). -/
def idxOfNode (x : Node) : List Node → Nat
  | [] => 0
  | y :: ys => if nodeEq y x then 0 else idxOfNode x ys + 1

/-- bs4 `soup.find('body')` and friends: first descendant tag with this name. -/
def findTag (soup : Node) (t : String) : Option Node :=
  (subDesc soup).find? (fun n =>
    match n with
    | .elem tg _ _ => tg == t
    | _ => false)

/-- bs4 `soup.find(id=a)`: first descendant tag whose `id` attribute is `a`. -/
def findById (soup : Node) (a : String) : Option Node :=
  (subDesc soup).find? (fun n =>
    match n with
    | .elem _ attrs _ => List.lookup "id" attrs == some a
    | _ => false)

/-! ## Image reference rewriting (`process_epub` step A, lines 334-346) -/

/-- Python `attrs[k] = v` on a tag's attribute mapping. -/
def setAttr : List (String × String) → String → String → List (String × String)
  | [], k, v => [(k, v)]
  | (k', v') :: rest, k, v =>
    if k' == k then (k, v) :: rest else (k', v') :: setAttr rest k v

/-- The rewrite of one `<img>` tag's attribute list against the image map:
`src = img.get('src',''); if not src: continue;` then try the percent-decoded
value and its basename against the map, first match wins, otherwise leave the
attributes untouched. -/
def fixImgAttrs (image_map : List (String × String)) (attrs : List (String × String)) :
    List (String × String) :=
  let src := (List.lookup "src" attrs).getD ""
  if src == "" then attrs
  else
    let src_decoded := String.mk (percentDecode src.data)
    let filename := String.mk (pyBasename src_decoded.data)
    match List.lookup src_decoded image_map with
    | some v => setAttr attrs "src" v
    | none =>
      match List.lookup filename image_map with
      | some v => setAttr attrs "src" v
      | none => attrs

mutual
/-- Apply the image rewrite to every `<img>` element of the tree. -/
def fixImages (image_map : List (String × String)) : Node → Node
  | .text s => .text s
  | .comment s => .comment s
  | .elem t a cs =>
    if t == "img" then .elem t (fixImgAttrs image_map a) (fixImagesList image_map cs)
    else .elem t a (fixImagesList image_map cs)
  | .doc cs => .doc (fixImagesList image_map cs)
def fixImagesList (image_map : List (String × String)) : List Node → List Node
  | [] => []
  | n :: ns => fixImages image_map n :: fixImagesList image_map ns
end

/-! ## Navigation entries and the TOC parser (`reader3.py` lines 34-147) -/

/-- Source `TOCEntry` (`reader3.py` lines 34-41). -/
inductive TOCEntry where
  | mk (title href file_href anchor : String) (children : List TOCEntry)

def TOCEntry.title : TOCEntry → String
  | .mk t _ _ _ _ => t

def TOCEntry.href : TOCEntry → String
  | .mk _ h _ _ _ => h

def TOCEntry.file_href : TOCEntry → String
  | .mk _ _ f _ _ => f

def TOCEntry.anchor : TOCEntry → String
  | .mk _ _ _ a _ => a

def TOCEntry.children : TOCEntry → List TOCEntry
  | .mk _ _ _ _ cs => cs

/-- Source `section.href.split('#')[0]` (`reader3.py` line 110 and twins). -/
def fileOf (h : String) : String :=
  String.mk ((pySplitOnChar '#' h.data).headI)

/-- Source `section.href.split('#')[1] if '#' in section.href else ""`
(`reader3.py` line 111 and twins). -/
def anchorOf (h : String) : String :=
  if h.data.contains '#' then String.mk (((pySplitOnChar '#' h.data).get? 1).getD [])
  else ""

/-- The shape of one node of the native navigation structure handed over by
`ebooklib`: a `Link`, a `(Section, children)` tuple, a bare `Section`, or an
unrecognised shape (which the parser silently skips). -/
inductive TocNode where
  | link (title href : String)
  | sect (title href : String) (children : List TocNode)
  | bare (title href : String)
  | other

mutual
/-- The entries contributed by one native navigation node: the three
`isinstance` branches of `parse_toc_recursive` (lines 105-131), plus the
silent skip of unknown shapes. -/
def parseTocNode : TocNode → List TOCEntry
  | .link t h => [.mk t h (fileOf h) (anchorOf h) []]
  | .sect t h cs => [.mk t h (fileOf h) (anchorOf h) (parse_toc_recursive cs)]
  | .bare t h => [.mk t h (fileOf h) (anchorOf h) []]
  | .other => []
/-- Source `parse_toc_recursive` (`reader3.py` lines 97-133). -/
def parse_toc_recursive : List TocNode → List TOCEntry
  | [] => []
  | n :: rest => parseTocNode n ++ parse_toc_recursive rest
end

/-- The title derivation of `get_fallback_toc` (`reader3.py` line 145):
`name.replace('.html','').replace('.xhtml','').replace('_',' ').title()`. -/
def fallbackTitle (name : String) : String :=
  String.mk (pyTitle (pyReplace "_".data " ".data
    (pyReplace ".xhtml".data [] (pyReplace ".html".data [] name.data))))

/-- Source `get_fallback_toc` (`reader3.py` lines 136-147): the items are the
`(name, is ITEM_DOCUMENT)` pairs produced by `book.get_items()`. -/
def get_fallback_toc (items : List (String × Bool)) : List TOCEntry :=
  (items.filter (fun p => p.2)).map (fun p => .mk (fallbackTitle p.1) p.1 p.1 "" [])

/-- The navigation tree used by `process_epub` (lines 300-303): the parsed
native TOC, or the fallback when it is empty. -/
def epubNavigation (native : List TocNode) (items : List (String × Bool)) : List TOCEntry :=
  let toc_structure := parse_toc_recursive native
  if toc_structure.isEmpty then get_fallback_toc items else toc_structure

mutual
/-- One entry followed by its recursively flattened children. -/
def flattenOne : TOCEntry → List TOCEntry
  | .mk t h f a cs => .mk t h f a cs :: flatten_toc cs
/-- Source `flatten_toc` (`reader3.py` lines 306-312). -/
def flatten_toc : List TOCEntry → List TOCEntry
  | [] => []
  | e :: es => flattenOne e ++ flatten_toc es
end

/-! ## Anchor-based splitter (`split_chapter_by_anchors`, lines 176-258) -/

/-- The double-quoted attribute marker `id="a"` searched for in the
serialised body. -/
def dqMarker (a : String) : List Char :=
  "id=\"".data ++ a.data ++ ['"']

/-- The single-quoted attribute marker (the quote written via its code point
39). -/
def sqMarker (a : String) : List Char :=
  "id=".data ++ Char.ofNat 39 :: a.data ++ [Char.ofNat 39]

/-- Python `body_html.find('id="a"')` falling back to the single-quoted form.
`none` models Python's `-1` at both attempts. -/
def findMarker (body_html : List Char) (a : String) : Option Nat :=
  match occurAt body_html (dqMarker a) with
  | some n => some n
  | none => occurAt body_html (sqMarker a)

/-- Anchor resolution (lines 188-197): keep the entries with a nonempty
anchor whose id exists in the parsed tree, paired with the position of the
element in the descendant list (`all_elements.index`). -/
def anchorPositions (soup : Node) (toc_entries : List TOCEntry) :
    List (Nat × Node × TOCEntry) :=
  toc_entries.filterMap (fun te =>
    if te.anchor == "" then none
    else
      match findById soup te.anchor with
      | some el => some (idxOfNode el (subDesc soup), el, te)
      | none => none)

/-- Stable insertion keeping earlier equal keys first (Python `list.sort`
with `key=lambda x: x[0]` is stable). -/
def insertByPos (x : Nat × Node × TOCEntry) :
    List (Nat × Node × TOCEntry) → List (Nat × Node × TOCEntry)
  | [] => [x]
  | y :: ys => if y.1 ≤ x.1 then y :: insertByPos x ys else x :: y :: ys

def sortByPos : List (Nat × Node × TOCEntry) → List (Nat × Node × TOCEntry)
  | [] => []
  | x :: xs => insertByPos x (sortByPos xs)

/-- Drop everything up to and including the next `>`. -/
def dropTag : List Char → List Char
  | [] => []
  | '>' :: rest => rest
  | _ :: rest => dropTag rest

theorem dropTag_length_le (l : List Char) : (dropTag l).length ≤ l.length := by
  induction l with
  | nil => simp [dropTag]
  | cons c rest ih =>
    rw [dropTag.eq_def]
    split
    · rename_i heq
      exact absurd heq (by simp)
    · rename_i rest2 heq
      injection heq with h1 h2
      subst h2
      simp
    · rename_i c2 rest2 hne heq
      injection heq with h1 h2
      subst h2
      simp only [List.length_cons]
      omega

/-- Models `extract_plain_text(BeautifulSoup(fragment))` on a serialised
fragment: erase markup between `<` and `>` and keep the text. -/
def stripTags (l : List Char) : List Char :=
  match l with
  | [] => []
  | '<' :: rest => stripTags (dropTag rest)
  | c :: rest => c :: stripTags rest
termination_by l.length
decreasing_by
  · have := dropTag_length_le rest
    simp only [List.length_cons]
    omega
  · simp

/-- Source `split_chapter_by_anchors` (`reader3.py` lines 176-258). The first
parameter (`chapter_content`, the raw markup string) is unused by the source
function as well. Returns `(anchor_id, title, section_html, section_text)`
tuples. -/
def split_chapter_by_anchors (chapter_content : String) (toc_entries : List TOCEntry)
    (soup : Node) : List (String × String × String × String) :=
  let _ := chapter_content
  if toc_entries.isEmpty then []
  else
    let aps := sortByPos (anchorPositions soup toc_entries)
    if aps.isEmpty then []
    else
      let body_html : List Char :=
        match findTag soup "body" with
        | some b => render b
        | none => render soup
      (withIdx 0 aps).filterMap (fun p =>
        match p with
        | (idx, _, _, te) =>
          match findMarker body_html te.anchor with
          | none => none
          | some start_pos =>
            let tag_start : Int := pyRfind '<' body_html start_pos
            let end_pos : Int :=
              match aps.get? (idx + 1) with
              | some q =>
                match findMarker body_html q.2.2.anchor with
                | some e => pyRfind '<' body_html e
                | none => (body_html.length : Int)
              | none => (body_html.length : Int)
            let section_html := pySlice body_html tag_start end_pos
            let section_text := normWS (stripTags section_html)
            some (te.anchor, te.title, String.mk section_html, String.mk section_text))

/-! ## EPUB spine processing (`process_epub`, lines 261-404) -/

/-- Source `ChapterContent` (`reader3.py` lines 20-31). -/
structure ChapterContent where
  id : String
  href : String
  title : String
  content : String
  text : String
  order : Nat
deriving DecidableEq

/-- One entry of `book.spine` after `get_item_with_id`: the item can be
missing (`if not item: continue`), a non-document item (skipped), or a
document with its name and parsed content. -/
inductive SpineItem where
  | absent (item_id : String)
  | nondocument (item_id : String)
  | document (item_id : String) (name : String) (soup : Node)

/-- The chapters contributed by one spine item (`process_epub` lines
321-392), given the flattened TOC, the image map, the spine position `i` and
the number `base` of chapters produced so far (`len(spine_chapters)`). -/
def chaptersForUnit (flat_toc : List TOCEntry) (image_map : List (String × String))
    (i base : Nat) : SpineItem → List ChapterContent
  | .absent _ => []
  | .nondocument _ => []
  | .document item_id name raw =>
    let soup := clean_html_content (fixImages image_map raw)
    let toc_entries := flat_toc.filter (fun t => t.file_href == name && !(t.anchor == ""))
    if 1 < toc_entries.length then
      (withIdx 0 (split_chapter_by_anchors "" toc_entries soup)).map (fun p =>
        { id := item_id ++ "#" ++ p.2.1
          href := name ++ "#" ++ p.2.1
          title := p.2.2.1
          content := p.2.2.2.1
          text := p.2.2.2.2
          order := base + p.1 })
    else
      let final_html : String :=
        match findTag soup "body" with
        | some body => String.mk (renderInner body)
        | none => String.mk (render soup)
      let title : String :=
        match flat_toc.find? (fun t => t.file_href == name) with
        | some t => t.title
        | none => "Section " ++ toString (i + 1)
      [{ id := item_id
         href := name
         title := title
         content := final_html
         text := extract_plain_text soup
         order := base }]

/-- The spine loop, accumulating `spine_chapters` (each new chapter's `order`
is the current length of the accumulator). -/
def processSpineAux (flat_toc : List TOCEntry) (image_map : List (String × String)) :
    List SpineItem → Nat → List ChapterContent → List ChapterContent
  | [], _, acc => acc
  | e :: es, i, acc =>
    processSpineAux flat_toc image_map es (i + 1)
      (acc ++ chaptersForUnit flat_toc image_map i acc.length e)

def process_epub_spine (flat_toc : List TOCEntry) (image_map : List (String × String))
    (items : List SpineItem) : List ChapterContent :=
  processSpineAux flat_toc image_map items 0 []

/-- The `Book` aggregate (`reader3.py` lines 57-68); metadata and provenance
fields are external I/O and omitted. -/
structure Book where
  spine : List ChapterContent
  toc : List TOCEntry
  images : List (String × String)

/-- Source `process_epub` (`reader3.py` lines 261-404), starting from the parsed
inputs: the native navigation nodes, the item listing (for the fallback
TOC), the image map built in step 4, and the spine. -/
def process_epub (native : List TocNode) (items : List (String × Bool))
    (image_map : List (String × String)) (spine : List SpineItem) : Book :=
  let toc_structure := epubNavigation native items
  let flat_toc := flatten_toc toc_structure
  { spine := process_epub_spine flat_toc image_map spine
    toc := toc_structure
    images := image_map }

/-! ## PDF processing (`process_pdf`, lines 407-560)

A PDF document is modelled at the PyMuPDF interface boundary as the list of
its per-page extracted texts plus its outline, an ordered list of
`(level, title, 1-based page)` entries (a trailing destination element of
`get_toc` rows is ignored by the source). -/

structure OutlineEntry where
  level : Int
  title : String
  page : Int

/-- One computed chapter range (`chapter_ranges` dict, lines 466-472). -/
structure ChapterRange where
  level : Int
  title : String
  start : Int
  stop : Int
  order : Nat

/-- The scan for the end page (lines 458-464): the first later entry with
`level <=` the current level closes the range at its page minus 2 (0-based
inclusive); otherwise the range runs to the last page. -/
def findEndPage (level : Int) (docLen : Nat) : List OutlineEntry → Int
  | [] => (docLen : Int) - 1
  | e :: rest => if e.level ≤ level then e.page - 2 else findEndPage level docLen rest

/-- The range-building loop (lines 451-472); the list argument at each step
is the remaining outline, so the scan forward sees exactly the later
entries. -/
def buildRangesAux (docLen : Nat) : Nat → List OutlineEntry → List ChapterRange
  | _, [] => []
  | i, e :: rest =>
    { level := e.level
      title := e.title
      start := e.page - 1
      stop := findEndPage e.level docLen rest
      order := i } :: buildRangesAux docLen (i + 1) rest

def buildRanges (docLen : Nat) (toc_outline : List OutlineEntry) : List ChapterRange :=
  buildRangesAux docLen 0 toc_outline

/-- Page harvesting for a range (lines 479-485): iterate the inclusive
0-based range, skipping out-of-bounds pages. -/
def harvestPages (pages : List String) (a b : Int) : List String :=
  ((intRange a (b + 1)).filter
    (fun p => decide (0 ≤ p) && decide (p < (pages.length : Int)))).map
      (fun p => pages.getD p.toNat "")

/-- Python `page_text.replace(chr(10), '<br>')` (line 485 and line 525). -/
def brParagraph (t : String) : String :=
  "<p>" ++ String.mk (pyReplace ['\n'] "<br>".data t.data) ++ "</p>"

/-- Python `"<div>" + paragraphs + "</div>"`. -/
def divWrap (texts : List String) : String :=
  "<div>" ++ String.join (texts.map brParagraph) ++ "</div>"

/-- The chapter built from one TOC range (lines 475-497). -/
def pdfTocChapter (pages : List String) (cr : ChapterRange) : ChapterContent :=
  let texts := harvestPages pages cr.start cr.stop
  { id := "chapter_" ++ toString cr.order
    href := "chapter_" ++ toString cr.order ++ ".html"
    title := cr.title
    content := divWrap texts
    text := String.intercalate " " texts
    order := cr.order }

def pdfTocChapters (pages : List String) (toc_outline : List OutlineEntry) :
    List ChapterContent :=
  (buildRanges pages.length toc_outline).map (pdfTocChapter pages)

/-- The flat navigation entry built alongside each TOC chapter
(lines 500-506). -/
def pdfTocEntry (cr : ChapterRange) : TOCEntry :=
  .mk cr.title ("chapter_" ++ toString cr.order ++ ".html")
    ("chapter_" ++ toString cr.order ++ ".html") "" []

def pdfTocEntries (docLen : Nat) (toc_outline : List OutlineEntry) : List TOCEntry :=
  (buildRanges docLen toc_outline).map pdfTocEntry

/-- Source `pages_per_chapter` (line 511). -/
def pages_per_chapter : Nat := 10

/-- The chapter built from one page chunk starting at `chunk_start`
(lines 514-538). -/
def pdfChunkChapter (pages : List String) (chunk_start : Nat) : ChapterContent :=
  let total_pages := pages.length
  let chunk_end := min (chunk_start + pages_per_chapter) total_pages
  let chapter_num := chunk_start / pages_per_chapter
  let texts := (pages.drop chunk_start).take (chunk_end - chunk_start)
  { id := "chapter_" ++ toString chapter_num
    href := "chapter_" ++ toString chapter_num ++ ".html"
    title := "Pages " ++ toString (chunk_start + 1) ++ "-" ++ toString chunk_end
    content := divWrap texts
    text := String.intercalate " " texts
    order := chapter_num }

def pdfChunkChapters (pages : List String) : List ChapterContent :=
  (pyRange 0 pages.length pages_per_chapter).map (pdfChunkChapter pages)

/-- The flat navigation entry built alongside each chunk chapter
(lines 540-546). -/
def pdfChunkEntry (pages : List String) (chunk_start : Nat) : TOCEntry :=
  let chunk_end := min (chunk_start + pages_per_chapter) pages.length
  let chapter_num := chunk_start / pages_per_chapter
  .mk ("Pages " ++ toString (chunk_start + 1) ++ "-" ++ toString chunk_end)
    ("chapter_" ++ toString chapter_num ++ ".html")
    ("chapter_" ++ toString chapter_num ++ ".html") "" []

def pdfChunkEntries (pages : List String) : List TOCEntry :=
  (pyRange 0 pages.length pages_per_chapter).map (pdfChunkEntry pages)

/-- Source `process_pdf` (lines 407-560): the outline path when the outline is
nonempty, the chunk fallback otherwise; the image map of the resulting book
is always empty (line 555). -/
def process_pdf (pages : List String) (toc_outline : List OutlineEntry) : Book :=
  if !toc_outline.isEmpty then
    { spine := pdfTocChapters pages toc_outline
      toc := pdfTocEntries pages.length toc_outline
      images := [] }
  else
    { spine := pdfChunkChapters pages
      toc := pdfChunkEntries pages
      images := [] }

/-! ## Spec-side comparison definitions -/

/-- Spec formulation of the page-range rule (§4.6): entry at level `L`
starting at 1-based page `p` covers 0-based `[p-1, q-2]` where `q` is the
1-based start page of the first later entry with level `≤ L`, else
`[p-1, P-1]`. -/
def specRanges (docLen : Nat) : List OutlineEntry → List (Int × Int)
  | [] => []
  | e :: rest =>
    (e.page - 1,
      match rest.find? (fun x => decide (x.level ≤ e.level)) with
      | some q => q.page - 2
      | none => (docLen : Int) - 1) :: specRanges docLen rest

/-- Spec formulation (C5): the prefix of a reference up to the first `#`. -/
def upToHash (l : List Char) : List Char :=
  l.takeWhile (fun c => !(c == '#'))

/-- Spec formulation (C5): the entire remainder after the first `#`
(empty when there is none). -/
def afterHash (l : List Char) : List Char :=
  (l.dropWhile (fun c => !(c == '#'))).tail

/-- Spec formulation (C8): strip a single trailing `.html`/`.xhtml`
extension. -/
def specStripExt (l : List Char) : List Char :=
  if leadMatch ".html".data.reverse l.reverse then l.take (l.length - 5)
  else if leadMatch ".xhtml".data.reverse l.reverse then l.take (l.length - 6)
  else l

/-- Spec formulation (C8) of the fallback title: strip the trailing markup
extension, replace underscores with spaces, title-case. -/
def specFallbackTitle (name : String) : String :=
  String.mk (pyTitle (pyReplace "_".data " ".data (specStripExt name.data)))

/-! ## Claim C4 -/

/-- Claim C4: the plain-text extractor is idempotent — re-extracting from the
re-parsed output returns the output itself — and its output is in
whitespace normal form: every whitespace run is collapsed to a single
space and there is no leading or trailing whitespace. -/
theorem c4_plain_text_idempotent_and_normalized (n : Node) :
    extract_plain_text (reparse (extract_plain_text n)) = extract_plain_text n ∧
    wsNormalized (extract_plain_text n).data = true := by
  constructor
  · have h : getTextSep (reparse (extract_plain_text n)) = normWS (getTextSep n) := rfl
    show String.mk (normWS (getTextSep (reparse (extract_plain_text n)))) = _
    rw [h, normWS_idem]
    rfl
  · exact wsNormalized_normWS _

/-! ## Claim C10 -/

/-- Claim C10: for every PDF input, the produced `Book` has an empty image
map, and every lookup against it misses. -/
theorem c10_pdf_image_map_empty (pages : List String) (toc_outline : List OutlineEntry) :
    (process_pdf pages toc_outline).images = [] ∧
    ∀ k : String, List.lookup k (process_pdf pages toc_outline).images = none := by
  unfold process_pdf
  split <;> exact ⟨rfl, fun k => rfl⟩

/-! ## Claim C3 -/

theorem findEndPage_eq_find (level : Int) (docLen : Nat) (l : List OutlineEntry) :
    findEndPage level docLen l =
      (match l.find? (fun x => decide (x.level ≤ level)) with
       | some q => q.page - 2
       | none => (docLen : Int) - 1) := by
  induction l with
  | nil => simp [findEndPage]
  | cons e rest ih =>
    by_cases h : e.level ≤ level
    · simp [findEndPage, List.find?_cons, h]
    · simp [findEndPage, List.find?_cons, h, ih]

theorem buildRangesAux_ranges (docLen : Nat) :
    ∀ (l : List OutlineEntry) (i : Nat),
      (buildRangesAux docLen i l).map (fun r => (r.start, r.stop)) = specRanges docLen l := by
  intro l
  induction l with
  | nil => intro i; simp [buildRangesAux, specRanges]
  | cons e rest ih =>
    intro i
    simp only [buildRangesAux, specRanges, List.map_cons, ih (i + 1)]
    rw [findEndPage_eq_find]

theorem buildRangesAux_length (docLen : Nat) :
    ∀ (l : List OutlineEntry) (i : Nat), (buildRangesAux docLen i l).length = l.length := by
  intro l
  induction l with
  | nil => intro i; simp [buildRangesAux]
  | cons e rest ih => intro i; simp [buildRangesAux, ih (i + 1)]

/-- Claim C3: the Page-Range Builder gives entry `i` at level `L` with 1-based
start page `p` the 0-based inclusive range `[p-1, q-2]`, where `q` is the
start page of the first later entry with level `≤ L`, or `[p-1, P-1]` with
no such entry; every outline entry yields exactly one chapter; and the
two-entry example on a 10-page document yields `[0,3]` and `[4,9]`. -/
theorem c3_page_range_builder :
    (∀ (docLen : Nat) (toc_outline : List OutlineEntry),
      (buildRanges docLen toc_outline).map (fun r => (r.start, r.stop)) =
        specRanges docLen toc_outline) ∧
    (∀ (pages : List String) (toc_outline : List OutlineEntry),
      (pdfTocChapters pages toc_outline).length = toc_outline.length) ∧
    (buildRanges 10 [⟨1, "Intro", 1⟩, ⟨1, "Body", 5⟩]).map (fun r => (r.start, r.stop)) =
      [((0 : Int), (3 : Int)), (4, 9)] := by
  refine ⟨fun docLen toc => buildRangesAux_ranges docLen toc 0, ?_, by decide⟩
  intro pages toc
  unfold pdfTocChapters buildRanges
  rw [List.length_map, buildRangesAux_length]

/-! ## Claim C1 -/

/-- Claim C1, code behaviour at the failing input: a physical unit targeted
by two anchored navigation entries, neither of whose anchors resolves to an
element of the parsed document, produces **zero** chapters: the splitter
returns the empty section list and `process_epub` iterates over it without
ever taking the single-section branch. (The spec instead requires a
fallback producing exactly one chapter.) -/
theorem c1_unresolvable_anchors_produce_no_chapter :
    (([TOCEntry.mk "A" "c1.html#a1" "c1.html" "a1" [],
       TOCEntry.mk "B" "c1.html#a2" "c1.html" "a2" []].filter
        (fun t => t.file_href == "c1.html" && !(t.anchor == ""))).length = 2) ∧
    split_chapter_by_anchors ""
      [TOCEntry.mk "A" "c1.html#a1" "c1.html" "a1" [],
       TOCEntry.mk "B" "c1.html#a2" "c1.html" "a2" []]
      (.doc [.elem "body" [] [.elem "p" [] [.text "hello"]]]) = [] ∧
    chaptersForUnit
      [TOCEntry.mk "A" "c1.html#a1" "c1.html" "a1" [],
       TOCEntry.mk "B" "c1.html#a2" "c1.html" "a2" []] [] 0 0
      (.document "id1" "c1.html"
        (.doc [.elem "body" [] [.elem "p" [] [.text "hello"]]])) = [] :=
  ⟨rfl, rfl, rfl⟩

/-! ## Claim C5 -/

theorem pySplitOnChar_ne_nil (sep : Char) (l : List Char) : pySplitOnChar sep l ≠ [] := by
  cases l with
  | nil => simp [pySplitOnChar]
  | cons c cs =>
    rw [pySplitOnChar.eq_def]
    by_cases h : c == sep
    · simp [h]
    · simp only [h, Bool.false_eq_true, if_false]
      split <;> simp

theorem pySplitOnChar_headI (sep : Char) (l : List Char) :
    (pySplitOnChar sep l).headI = l.takeWhile (fun c => !(c == sep)) := by
  induction l with
  | nil => simp [pySplitOnChar]
  | cons c cs ih =>
    by_cases h : c == sep
    · simp [pySplitOnChar, h, List.takeWhile_cons]
    · cases hsplit : pySplitOnChar sep cs with
      | nil => exact absurd hsplit (pySplitOnChar_ne_nil sep cs)
      | cons t ts =>
        rw [hsplit] at ih
        simp only [pySplitOnChar, h, Bool.false_eq_true, if_false, hsplit,
          List.takeWhile_cons]
        simp only [h, Bool.not_false, if_true, List.headI] at ih ⊢
        rw [ih]

theorem pySplitOnChar_structure (sep : Char) :
    ∀ l : List Char, sep ∈ l →
      pySplitOnChar sep l =
        l.takeWhile (fun c => !(c == sep)) ::
          pySplitOnChar sep ((l.dropWhile (fun c => !(c == sep))).tail) := by
  intro l
  induction l with
  | nil => intro h; simp at h
  | cons c cs ih =>
    intro hmem
    by_cases h : c == sep
    · have hc : c = sep := by simpa using h
      subst hc
      simp [pySplitOnChar, List.takeWhile_cons, List.dropWhile_cons]
    · have hcs : sep ∈ cs := by
        rcases List.mem_cons.mp hmem with hx | hx
        · exact absurd hx.symm (by simpa using h)
        · exact hx
      cases hsplit : pySplitOnChar sep cs with
      | nil => exact absurd hsplit (pySplitOnChar_ne_nil sep cs)
      | cons t ts =>
        have hstep := ih hcs
        rw [hsplit] at hstep
        have ht := (List.cons_eq_cons.mp hstep).1
        have hts := (List.cons_eq_cons.mp hstep).2
        have hb : (c == sep) = false := by simpa using h
        simp only [pySplitOnChar, hb, Bool.false_eq_true, if_false, hsplit,
          List.takeWhile_cons, List.dropWhile_cons, Bool.not_false, if_true]
        rw [ht, hts]

theorem fileOf_data (h : String) : (fileOf h).data = upToHash h.data := by
  unfold fileOf upToHash
  show (pySplitOnChar '#' h.data).headI = _
  exact pySplitOnChar_headI '#' h.data

theorem anchorOf_data (h : String) :
    (anchorOf h).data =
      (if h.data.contains '#' then upToHash (afterHash h.data) else []) := by
  unfold anchorOf
  by_cases hc : h.data.contains '#'
  · have hmem : '#' ∈ h.data := by simpa using hc
    rw [hc]
    simp only [if_true]
    rw [pySplitOnChar_structure '#' h.data hmem]
    cases hs : pySplitOnChar '#' ((h.data.dropWhile (fun c => !(c == '#'))).tail) with
    | nil => exact absurd hs (pySplitOnChar_ne_nil _ _)
    | cons t2 ts2 =>
      have ht2 : t2 = ((h.data.dropWhile (fun c => !(c == '#'))).tail).takeWhile
          (fun c => !(c == '#')) := by
        have := pySplitOnChar_headI '#' ((h.data.dropWhile (fun c => !(c == '#'))).tail)
        rw [hs] at this
        simpa using this
      show (((h.data.takeWhile _ :: t2 :: ts2).get? 1).getD []) = _
      simp only [List.get?_cons_succ, List.get?_cons_zero, Option.getD_some]
      rw [ht2]
      rfl
  · rw [Bool.of_not_eq_true hc]
    simp

theorem no_hash_takeWhile {m : List Char} (h : '#' ∉ m) :
    m.takeWhile (fun c => !(c == '#')) = m := by
  induction m with
  | nil => simp
  | cons c cs ih =>
    have hc : ¬c = '#' := fun hcc => h (by simp [hcc])
    rw [List.takeWhile_cons]
    simp only [show (c == '#') = false from beq_eq_false_iff_ne.mpr hc, Bool.not_false, if_true]
    rw [ih (fun hx => h (by simp [hx]))]

theorem no_hash_afterHash {m : List Char} (h : '#' ∉ m) : afterHash m = [] := by
  unfold afterHash
  have : m.dropWhile (fun c => !(c == '#')) = [] := by
    have hall : ∀ c ∈ m, (fun c => !(c == '#')) c = true := by
      intro c hcm
      have : ¬c = '#' := fun hcc => h (hcc ▸ hcm)
      simp [beq_eq_false_iff_ne.mpr this]
    have := dropWhile_append_all hall []
    simpa using this
  rw [this]
  rfl

theorem count_le_one_afterHash (l : List Char) (h : l.count '#' ≤ 1) :
    '#' ∉ afterHash l := by
  induction l with
  | nil => simp [afterHash]
  | cons c cs ih =>
    by_cases hc : c = '#'
    · subst hc
      have hcount : cs.count '#' = 0 := by
        rw [List.count_cons] at h
        simp at h
        omega
      have hnot : '#' ∉ cs := by simpa using List.count_eq_zero.mp hcount
      unfold afterHash
      rw [List.dropWhile_cons]
      simp only [beq_self_eq_true, Bool.not_true, Bool.false_eq_true, if_false, List.tail_cons]
      exact hnot
    · have hcs : cs.count '#' ≤ 1 := by
        rw [List.count_cons] at h
        simp [show (c == '#') = false from beq_eq_false_iff_ne.mpr hc] at h
        omega
      have : afterHash (c :: cs) = afterHash cs := by
        unfold afterHash
        rw [List.dropWhile_cons]
        simp [show (c == '#') = false from beq_eq_false_iff_ne.mpr hc]
      rw [this]
      exact ih hcs

/-- Every navigation entry produced by the TOC parser has its `file_href`
and `anchor` fields computed by the two `split('#')` expressions. -/
theorem parse_toc_fields :
    (nodes : List TocNode) → ∀ e ∈ flatten_toc (parse_toc_recursive nodes),
      e.file_href = fileOf e.href ∧ e.anchor = anchorOf e.href
  | [] => by simp [parse_toc_recursive, flatten_toc]
  | .link t h :: rest => by
    intro e he
    have : e = TOCEntry.mk t h (fileOf h) (anchorOf h) [] ∨
        e ∈ flatten_toc (parse_toc_recursive rest) := by
      simpa [parse_toc_recursive, parseTocNode, flatten_toc, flattenOne] using he
    rcases this with rfl | h2
    · exact ⟨rfl, rfl⟩
    · exact parse_toc_fields rest e h2
  | .sect t h cs :: rest => by
    intro e he
    have : e = TOCEntry.mk t h (fileOf h) (anchorOf h) (parse_toc_recursive cs) ∨
        e ∈ flatten_toc (parse_toc_recursive cs) ∨
        e ∈ flatten_toc (parse_toc_recursive rest) := by
      simpa [parse_toc_recursive, parseTocNode, flatten_toc, flattenOne] using he
    rcases this with rfl | h2 | h3
    · exact ⟨rfl, rfl⟩
    · exact parse_toc_fields cs e h2
    · exact parse_toc_fields rest e h3
  | .bare t h :: rest => by
    intro e he
    have : e = TOCEntry.mk t h (fileOf h) (anchorOf h) [] ∨
        e ∈ flatten_toc (parse_toc_recursive rest) := by
      simpa [parse_toc_recursive, parseTocNode, flatten_toc, flattenOne] using he
    rcases this with rfl | h2
    · exact ⟨rfl, rfl⟩
    · exact parse_toc_fields rest e h2
  | .other :: rest => by
    intro e he
    have h2 : e ∈ flatten_toc (parse_toc_recursive rest) := by
      simpa [parse_toc_recursive, parseTocNode, flatten_toc] using he
    exact parse_toc_fields rest e h2

/-- Claim C5, counterexample: on the reference `a#b#c` (two `#` characters)
the parser records anchor `"b"` — the piece between the first and second
`#` — not the entire remainder `"b#c"` after the first `#`. -/
theorem c5_counterexample :
    (parse_toc_recursive [TocNode.link "t" "a#b#c"]).map (fun e => e.anchor) = ["b"] ∧
    afterHash ("a#b#c" : String).data = ("b#c" : String).data ∧
    ("b" : String).data ≠ ("b#c" : String).data :=
  ⟨rfl, rfl, by decide⟩

/-- Claim C5, amended: for every entry built by the TOC parser, `file_href`
is the prefix of `href` up to the first `#`, and `anchor` is the piece of
`href` strictly between the first and second `#` (the whole remainder when
`href` contains at most one `#`, empty when it contains none). -/
theorem c5_navigation_href_fields (nodes : List TocNode) (e : TOCEntry)
    (he : e ∈ flatten_toc (parse_toc_recursive nodes)) :
    e.file_href.data = upToHash e.href.data ∧
    e.anchor.data =
      (if e.href.data.contains '#' then upToHash (afterHash e.href.data) else []) ∧
    (e.href.data.count '#' ≤ 1 → e.anchor.data = afterHash e.href.data) := by
  obtain ⟨hf, ha⟩ := parse_toc_fields nodes e he
  refine ⟨by rw [hf]; exact fileOf_data e.href, by rw [ha]; exact anchorOf_data e.href, ?_⟩
  intro hcount
  rw [ha, anchorOf_data e.href]
  by_cases hc : e.href.data.contains '#'
  · rw [hc]
    simp only [if_true]
    exact no_hash_takeWhile (count_le_one_afterHash e.href.data hcount)
  · rw [Bool.of_not_eq_true hc]
    simp only [Bool.false_eq_true, if_false]
    have : '#' ∉ e.href.data := by simpa using hc
    exact (no_hash_afterHash this).symm

theorem c5_witness :
    (TOCEntry.mk "t" "a#b" "a" "b" [] ∈
      flatten_toc (parse_toc_recursive [TocNode.link "t" "a#b"])) ∧
    (TOCEntry.mk "t" "a#b" "a" "b" []).anchor.data =
      afterHash (TOCEntry.mk "t" "a#b" "a" "b" []).href.data := by
  have hmem : TOCEntry.mk "t" "a#b" "a" "b" [] ∈
      flatten_toc (parse_toc_recursive [TocNode.link "t" "a#b"]) := by
    show TOCEntry.mk "t" "a#b" "a" "b" [] ∈ [TOCEntry.mk "t" "a#b" "a" "b" []]
    exact List.mem_singleton.mpr rfl
  exact ⟨hmem,
    (c5_navigation_href_fields [TocNode.link "t" "a#b"] _ hmem).2.2 (by decide)⟩

/-! ## Claim C8 -/

/-- Claim C8, counterexample: on a unit named `intro.html_notes.html` the
fallback title is computed by *replacing every occurrence* of `.html`, not
by stripping the trailing extension: the code produces `"Intro Notes"`,
while stripping only the extension would produce `"Intro.Html Notes"`. -/
theorem c8_fallback_title_counterexample :
    (get_fallback_toc [("intro.html_notes.html", true)]).map (fun e => e.title) =
      ["Intro Notes"] ∧
    specFallbackTitle "intro.html_notes.html" = "Intro.Html Notes" ∧
    ("Intro Notes" : String) ≠ "Intro.Html Notes" :=
  ⟨rfl, rfl, by decide⟩

/-- Claim C8, amended: when native navigation parsing is empty, the fallback
builder emits one flat entry per content unit, in document order, with empty
anchor and no children, the title being the unit name with **every**
occurrence of `.html` and `.xhtml` removed, underscores replaced by spaces,
and the result title-cased. -/
theorem c8_fallback_navigation (native : List TocNode) (items : List (String × Bool))
    (hempty : parse_toc_recursive native = []) :
    epubNavigation native items = get_fallback_toc items ∧
    get_fallback_toc items =
      (items.filter (fun p => p.2)).map
        (fun p => TOCEntry.mk (fallbackTitle p.1) p.1 p.1 "" []) ∧
    (epubNavigation native items).length = (items.filter (fun p => p.2)).length ∧
    ∀ e ∈ epubNavigation native items, e.anchor = "" ∧ e.children = [] := by
  have h1 : epubNavigation native items = get_fallback_toc items := by
    unfold epubNavigation
    rw [hempty]
    simp
  refine ⟨h1, rfl, ?_, ?_⟩
  · rw [h1]
    unfold get_fallback_toc
    rw [List.length_map]
  · rw [h1]
    intro e he
    unfold get_fallback_toc at he
    rcases List.mem_map.mp he with ⟨p, _, rfl⟩
    exact ⟨rfl, rfl⟩

theorem c8_witness :
    (epubNavigation []
      [("ch1.html", true), ("ch2.html", true), ("pic.png", false),
       ("notes_a.xhtml", true), ("ch4.html", true)]).length = 4 := by
  have h := c8_fallback_navigation []
    [("ch1.html", true), ("ch2.html", true), ("pic.png", false),
     ("notes_a.xhtml", true), ("ch4.html", true)] rfl
  rw [h.2.2.1]
  rfl

/-! ## Claim C7 -/

/-- Claim C7: for an image element with a nonempty `src` attribute, the rewrite
tries exactly two keys against the image map in order — the percent-decoded
attribute value, then its basename — rewriting `src` to the first match's
value, and leaves the attributes untouched when both lookups miss (the
operation is a total function: no exception path exists). -/
theorem c7_image_rewrite_two_keys (image_map attrs : List (String × String)) (src : String)
    (hsrc : List.lookup "src" attrs = some src) (hne : ¬src = "") :
    fixImgAttrs image_map attrs =
      (match List.lookup (String.mk (percentDecode src.data)) image_map with
       | some v => setAttr attrs "src" v
       | none =>
         match List.lookup (String.mk (pyBasename (percentDecode src.data))) image_map with
         | some v => setAttr attrs "src" v
         | none => attrs) := by
  unfold fixImgAttrs
  rw [hsrc]
  simp only [Option.getD_some, beq_eq_false_iff_ne.mpr hne, Bool.false_eq_true, if_false]

theorem c7_witness :
    fixImgAttrs [("part01/pic 1.jpg", "images/pic1.jpg")] [("src", "part01/pic%201.jpg")] =
      [("src", "images/pic1.jpg")] := by
  have h := c7_image_rewrite_two_keys
    [("part01/pic 1.jpg", "images/pic1.jpg")] [("src", "part01/pic%201.jpg")]
    "part01/pic%201.jpg" rfl (by decide)
  exact h.trans (by decide)

/-! ## Claim C9 -/

/-- Claim C9: a physical unit targeted by at most one anchored navigation
entry is not split: it produces exactly one chapter whose plain text is the
plain text of the whole cleaned unit, whose markup is the inner content of
the `body` element (the whole cleaned document when no `body` exists), and
whose title is the first matching navigation entry's title, defaulting to
the positional placeholder `"Section {i+1}"`. -/
theorem c9_single_section_path (flat_toc : List TOCEntry) (image_map : List (String × String))
    (i base : Nat) (item_id name : String) (raw : Node)
    (h : (flat_toc.filter (fun t => t.file_href == name && !(t.anchor == ""))).length ≤ 1) :
    chaptersForUnit flat_toc image_map i base (.document item_id name raw) =
      [{ id := item_id
         href := name
         title := (match flat_toc.find? (fun t => t.file_href == name) with
                   | some t => t.title
                   | none => "Section " ++ toString (i + 1))
         content := (match findTag (clean_html_content (fixImages image_map raw)) "body" with
                     | some body => String.mk (renderInner body)
                     | none => String.mk (render (clean_html_content (fixImages image_map raw))))
         text := extract_plain_text (clean_html_content (fixImages image_map raw))
         order := base }] := by
  have hnot : ¬(1 <
      (flat_toc.filter (fun t => t.file_href == name && !(t.anchor == ""))).length) := by
    omega
  simp only [chaptersForUnit]
  rw [if_neg hnot]

theorem c9_witness :
    (chaptersForUnit [TOCEntry.mk "Ch" "c1.html" "c1.html" "" []] [] 0 5
      (.document "id1" "c1.html" (.doc [.elem "body" [] [.text "hi"]]))).length = 1 := by
  rw [c9_single_section_path [TOCEntry.mk "Ch" "c1.html" "c1.html" "" []] [] 0 5
    "id1" "c1.html" (.doc [.elem "body" [] [.text "hi"]]) (by decide)]
  rfl

/-! ## Claim C2 -/

theorem chaptersForUnit_orders (ft : List TOCEntry) (im : List (String × String))
    (i base : Nat) (e : SpineItem) :
    (chaptersForUnit ft im i base e).map (fun c => c.order) =
      List.range' base (chaptersForUnit ft im i base e).length := by
  cases e with
  | absent s => simp [chaptersForUnit]
  | nondocument s => simp [chaptersForUnit]
  | document item_id name raw =>
    simp only [chaptersForUnit]
    by_cases hlen : 1 <
        ((ft.filter (fun t => t.file_href == name && !(t.anchor == ""))).length)
    · rw [if_pos hlen]
      rw [List.map_map, List.length_map, withIdx_length]
      have := withIdx_map_add base
        (split_chapter_by_anchors ""
          (ft.filter (fun t => t.file_href == name && !(t.anchor == "")))
          (clean_html_content (fixImages im raw))) 0
      simpa using this
    · rw [if_neg hlen]
      simp

theorem processSpineAux_orders (ft : List TOCEntry) (im : List (String × String)) :
    ∀ (items : List SpineItem) (i : Nat) (acc : List ChapterContent),
      acc.map (fun c => c.order) = List.range' 0 acc.length →
      (processSpineAux ft im items i acc).map (fun c => c.order) =
        List.range' 0 (processSpineAux ft im items i acc).length := by
  intro items
  induction items with
  | nil => intro i acc h; simpa [processSpineAux] using h
  | cons e es ih =>
    intro i acc h
    rw [processSpineAux]
    apply ih
    rw [List.map_append, h, chaptersForUnit_orders, List.length_append]
    have := List.range'_append 0 acc.length (chaptersForUnit ft im i acc.length e).length 1
    simpa [Nat.add_comm] using this

theorem buildRangesAux_orders (docLen : Nat) :
    ∀ (l : List OutlineEntry) (i : Nat),
      (buildRangesAux docLen i l).map (fun r => r.order) = List.range' i l.length := by
  intro l
  induction l with
  | nil => intro i; simp [buildRangesAux]
  | cons e rest ih =>
    intro i
    rw [buildRangesAux, List.map_cons, List.length_cons, List.range'_succ, ih (i + 1)]

/-- Claim C2: on every chapter-producing path — EPUB (split or single-section,
including dropped units and dropped sections) and PDF (outline ranges or
page chunks) — the `order` values of the produced chapter list are exactly
`0..N-1`, assigned by one counter spanning the whole run. -/
theorem c2_sequence_indices_dense :
    (∀ (native : List TocNode) (items : List (String × Bool))
        (image_map : List (String × String)) (spine : List SpineItem),
      ((process_epub native items image_map spine).spine).map (fun c => c.order) =
        List.range ((process_epub native items image_map spine).spine).length) ∧
    (∀ (pages : List String) (toc_outline : List OutlineEntry),
      ((process_pdf pages toc_outline).spine).map (fun c => c.order) =
        List.range ((process_pdf pages toc_outline).spine).length) := by
  constructor
  · intro native items im spine
    show (process_epub_spine _ _ _).map _ = List.range (process_epub_spine _ _ _).length
    unfold process_epub_spine
    rw [List.range_eq_range']
    exact processSpineAux_orders _ _ spine 0 [] (by simp)
  · intro pages toc
    unfold process_pdf
    split
    · show (pdfTocChapters pages toc).map _ = List.range (pdfTocChapters pages toc).length
      unfold pdfTocChapters buildRanges
      rw [List.map_map, List.length_map, buildRangesAux_length, List.range_eq_range']
      have h1 : ((fun c => ChapterContent.order c) ∘ pdfTocChapter pages) =
          fun r => r.order := rfl
      rw [h1, buildRangesAux_orders]
    · show (pdfChunkChapters pages).map _ = List.range (pdfChunkChapters pages).length
      unfold pdfChunkChapters pyRange
      rw [List.map_map, List.map_map, List.length_map, List.length_map]
      have h2 : ∀ k : Nat,
          (((fun c => ChapterContent.order c) ∘ pdfChunkChapter pages) ∘
            fun k => 0 + pages_per_chapter * k) k = k := by
        intro k
        show (pdfChunkChapter pages (0 + pages_per_chapter * k)).order = k
        simp only [pdfChunkChapter, pages_per_chapter, Nat.zero_add]
        exact Nat.mul_div_cancel_left k (by norm_num)
      rw [List.map_congr_left (fun a _ => h2 a)]
      simp

/-! ## Claim C6 -/

theorem process_pdf_no_outline (pages : List String) :
    (process_pdf pages []).spine = pdfChunkChapters pages ∧
    (process_pdf pages []).toc = pdfChunkEntries pages := by
  unfold process_pdf
  simp

/-- Claim C6: with no outline, all pages are partitioned into consecutive
chunks of at most 10 pages; chunk `k` holds pages `10k..min(10k+10,P)-1` and
becomes one chapter titled `"Pages {first}-{last}"` (1-based inclusive) plus
one flat navigation entry with empty anchor; 23 pages yield exactly the
three chapters `"Pages 1-10"`, `"Pages 11-20"`, `"Pages 21-23"`. -/
theorem c6_page_chunk_fallback :
    (∀ pages : List String,
      ((process_pdf pages []).spine).map (fun c => c.title) =
        (List.range ((pages.length + 9) / 10)).map
          (fun k => "Pages " ++ toString (10 * k + 1) ++ "-" ++
            toString (min (10 * k + 10) pages.length))) ∧
    (∀ pages : List String,
      ((process_pdf pages []).spine).map (fun c => c.text) =
        (List.range ((pages.length + 9) / 10)).map
          (fun k => String.intercalate " " ((pages.drop (10 * k)).take 10))) ∧
    (∀ pages : List String,
      ((process_pdf pages []).toc).length = ((process_pdf pages []).spine).length ∧
      ((process_pdf pages []).toc).all
        (fun e => e.anchor == "" && e.children.isEmpty) = true) ∧
    ((process_pdf (List.replicate 23 "x") []).spine).map (fun c => c.title) =
      ["Pages 1-10", "Pages 11-20", "Pages 21-23"] ∧
    ((process_pdf (List.replicate 23 "x") []).spine).length = 3 := by
  have hnum : ∀ n : Nat, (n - 0 + pages_per_chapter - 1) / pages_per_chapter = (n + 9) / 10 := by
    intro n
    simp only [pages_per_chapter]
    omega
  refine ⟨?_, ?_, ?_, by decide, by decide⟩
  · intro pages
    rw [(process_pdf_no_outline pages).1]
    unfold pdfChunkChapters pyRange
    rw [List.map_map, List.map_map, hnum]
    refine List.map_congr_left ?_
    intro k _
    show (pdfChunkChapter pages (0 + pages_per_chapter * k)).title = _
    simp only [pdfChunkChapter, pages_per_chapter, Nat.zero_add]
  · intro pages
    rw [(process_pdf_no_outline pages).1]
    unfold pdfChunkChapters pyRange
    rw [List.map_map, List.map_map, hnum]
    refine List.map_congr_left ?_
    intro k _
    show (pdfChunkChapter pages (0 + pages_per_chapter * k)).text = _
    simp only [pdfChunkChapter, pages_per_chapter, Nat.zero_add]
    congr 1
    refine List.take_eq_take.mpr ?_
    rw [List.length_drop]
    omega
  · intro pages
    rw [(process_pdf_no_outline pages).1, (process_pdf_no_outline pages).2]
    constructor
    · unfold pdfChunkEntries pdfChunkChapters
      rw [List.length_map, List.length_map]
    · unfold pdfChunkEntries
      refine List.all_eq_true.mpr ?_
      intro x hx
      rcases List.mem_map.mp hx with ⟨cs, _, rfl⟩
      rfl

end Reader3
